import Mathlib

/-!
Verification of the Quartiles solver (src/main.py).

The program has two pure components:

* `concat` — the Combiner: enumerates every concatenation of a
  k-permutation of the fragment list for k ranging over clamped bounds
  `[minParts, maxParts]` (Python `itertools.permutations(frags, k)`).
* `check` — the Validator: classifies a candidate word as
  valid / unsure / invalid from the verdicts of up to three dictionary
  oracles (NLTK WordNet, pyspellchecker `_SPELL`, pyenchant `_ENCHANT`),
  the last two optional.

The oracle environment (which optional oracles are installed, and what
each oracle answers on a given lowercased string) is abstracted as the
structure `Oracles`; everything else is translated directly from the
source.
-/

namespace Quartiles

/-- The tri-state label returned by `check`. -/
inductive Status where
  | valid
  | unsure
  | invalid
  deriving DecidableEq

/-- Oracle environment for `check`.  `spellAvail` models `_SPELL is not
None`, `enchantAvail` models `_ENCHANT is not None`; WordNet is always
present.  `wordnetAns wl` models `bool(wn.synsets(wl))`, `spellAns wl`
models `wl not in _SPELL.unknown({wl})`, `enchantAns wl` models
`_ENCHANT.check(wl)`. -/
structure Oracles where
  spellAvail : Bool
  enchantAvail : Bool
  wordnetAns : String → Bool
  spellAns : String → Bool
  enchantAns : String → Bool

/-- `w.lower()`: characterwise lowercasing of the candidate string.
(Lean's `String.toLower` is the same map but is stated through
well-founded recursion, which blocks kernel evaluation, so the map over
the underlying character list is used directly.) -/
def strLower (s : String) : String := ⟨s.data.map Char.toLower⟩

/-- The counter `validators_passed` accumulated in `check` (src/main.py
lines 52-72): one for WordNet affirming, one for the spell-checker if it
is installed and affirms, one for enchant if it is installed and
affirms. -/
def validators_passed (o : Oracles) (wl : String) : Nat :=
  (if o.wordnetAns wl then 1 else 0) +
    (if o.spellAvail && o.spellAns wl then 1 else 0) +
    (if o.enchantAvail && o.enchantAns wl then 1 else 0)

/-- `total_validators = 2 + (1 if _ENCHANT else 0)` (src/main.py line 79).
Note it counts the `_SPELL` oracle unconditionally, installed or not. -/
def total_validators (o : Oracles) : Nat :=
  2 + (if o.enchantAvail then 1 else 0)

/-- The Validator `check` (src/main.py lines 36-96), with the `debug`
printing (a pure side effect on the result) omitted. -/
def check (o : Oracles) (w : String) : Status :=
  if w = "" then Status.invalid
  else
    let wl := strLower w
    if wl.length ≤ 3 then
      if validators_passed o wl = total_validators o ∧ o.wordnetAns wl = true then
        Status.valid
      else if 2 ≤ validators_passed o wl ∧ o.wordnetAns wl = true then
        Status.unsure
      else Status.invalid
    else
      if validators_passed o wl = total_validators o then Status.valid
      else if total_validators o - 1 ≤ validators_passed o wl ∧ o.wordnetAns wl = true then
        Status.unsure
      else Status.invalid

/-- All ways to pick one element out of a list, paired with the remaining
elements in their original relative order; auxiliary for `kperms`. -/
def picks {α : Type} : List α → List (α × List α)
  | [] => []
  | x :: xs => (x, xs) :: (picks xs).map (fun p => (p.1, x :: p.2))

/-- `kperms k l` lists every k-permutation of `l` (ordered selections of
`k` entries at distinct positions), in the order emitted by Python
`itertools.permutations(l, k)`. -/
def kperms {α : Type} : Nat → List α → List (List α)
  | 0, _ => [[]]
  | k + 1, l => (picks l).flatMap (fun p => (kperms k p.2).map (fun q => p.1 :: q))

/-- The Combiner `concat` (src/main.py lines 98-126): clamp the bounds,
then for each k in `range(minParts, maxParts + 1)` join every
k-permutation of the fragments.  The Python defaults are
`minParts = 1`, `maxParts = None`. -/
def concat (fragments : List String) (minParts : Int) (maxParts : Option Int) : List String :=
  let frags := fragments
  let n := frags.length
  if n = 0 then []
  else
    let maxParts : Int := maxParts.getD (n : Int)
    let minParts : Int := max 1 minParts
    let maxParts : Int := min (n : Int) maxParts
    if minParts > maxParts then []
    else
      (List.range' minParts.toNat (maxParts + 1 - minParts).toNat).flatMap
        (fun k => (kperms k frags).map (fun perm => String.join perm))

/-- Oracle environment where every oracle is installed and affirms every
word — the "working lexical oracle" of the spec's examples. -/
def allAffirming : Oracles :=
  ⟨true, true, fun _ => true, fun _ => true, fun _ => true⟩

/-- Oracle environment with both optional spell-checkers missing, while
every oracle function would affirm every word. -/
def wordnetOnlyAllTrue : Oracles :=
  ⟨false, false, fun _ => true, fun _ => true, fun _ => true⟩

/-- C6: `check` on the empty string is `invalid` under every oracle
environment — the empty test precedes every oracle consultation, so the
result does not depend on any oracle at all. -/
theorem check_empty_invalid (o : Oracles) : check o "" = Status.invalid := by
  simp [check]

/-- C4: `concat` returns the empty list whenever the fragment list is
empty, and whenever the clamped bounds cross: `min(n, maxParts) <
max(1, minParts)`. -/
theorem concat_empty_or_invalid_bounds (frags : List String) (minParts maxParts : Int)
    (h : frags = [] ∨ min ((frags.length : Int)) maxParts < max 1 minParts) :
    concat frags minParts (some maxParts) = [] := by
  rcases h with h | h
  · subst h
    simp [concat]
  · by_cases hn : frags.length = 0
    · simp [concat, hn]
    · simp only [concat, Option.getD_some, if_neg hn]
      rw [if_pos h]

/-- Closed instance of C4: `concat ["a"] 2 1` has crossed clamped bounds
and returns `[]`. -/
theorem concat_empty_or_invalid_bounds_witness :
    ((["a"] : List String) = [] ∨
        min (((["a"] : List String).length : Int)) 1 < max 1 2) ∧
      concat ["a"] 2 (some 1) = [] :=
  ⟨by decide, concat_empty_or_invalid_bounds ["a"] 2 1 (by decide)⟩

/-- C7: on the spec's examples, `concat ["qu", "art", "ile"] 1 3` yields
exactly 15 candidates including `"quartile"`; `concat ["ab"]` (with the
Python defaults) yields `["ab"]` only; and `"quartile"` classifies as
`valid` when the oracle stack is working (all oracles installed and
affirming). -/
theorem concat_examples_and_quartile_valid :
    (concat ["qu", "art", "ile"] 1 (some 3)).length = 15 ∧
      "quartile" ∈ concat ["qu", "art", "ile"] 1 (some 3) ∧
      concat ["ab"] 1 none = ["ab"] ∧
      check allAffirming "quartile" = Status.valid := by
  refine ⟨by decide, by decide, by decide, by decide⟩

/-- Following the spec's words: every *available* oracle affirms the
lowercased word (WordNet is always available; an absent spell-checker
imposes no constraint). -/
def allAvailAffirm (o : Oracles) (wl : String) : Bool :=
  o.wordnetAns wl && (!o.spellAvail || o.spellAns wl) && (!o.enchantAvail || o.enchantAns wl)

/-- Following the spec's words: the number of oracles actually available
(WordNet plus each installed spell-checker). -/
def availOracleCount (o : Oracles) : Nat :=
  1 + (if o.spellAvail then 1 else 0) + (if o.enchantAvail then 1 else 0)

/-- Claim C2's description of the short-word classifier: `valid` when all
available oracles affirm and the primary affirms; `unsure` when at least
two oracles affirm including the primary; `invalid` otherwise. -/
def checkShortClaim (o : Oracles) (w : String) : Status :=
  let wl := strLower w
  if allAvailAffirm o wl = true ∧ o.wordnetAns wl = true then Status.valid
  else if 2 ≤ validators_passed o wl ∧ o.wordnetAns wl = true then Status.unsure
  else Status.invalid

/-- Claim C2 amended: `valid` additionally requires the secondary
spell-checker to be installed (the code counts it in `total_validators`
whether installed or not); the `unsure` and `invalid` clauses are
unchanged. -/
def checkShortAmended (o : Oracles) (w : String) : Status :=
  let wl := strLower w
  if o.spellAvail = true ∧ allAvailAffirm o wl = true ∧ o.wordnetAns wl = true then
    Status.valid
  else if 2 ≤ validators_passed o wl ∧ o.wordnetAns wl = true then Status.unsure
  else Status.invalid

/-- Claim C3's description of the long-word classifier: `valid` when all
(available) oracles affirm; `unsure` when at least (total oracle count
minus one) oracles affirm and the primary affirms; `invalid`
otherwise. -/
def checkLongClaim (o : Oracles) (w : String) : Status :=
  let wl := strLower w
  if allAvailAffirm o wl = true then Status.valid
  else if availOracleCount o - 1 ≤ validators_passed o wl ∧ o.wordnetAns wl = true then
    Status.unsure
  else Status.invalid

/-- Claim C3 amended: the threshold count is the code's fixed
`total_validators = 2 + (1 if enchant else 0)`, which counts the
spell-checker even when it is missing: `valid` requires the spell-checker
installed and all available oracles affirming; `unsure` requires at least
`total_validators - 1` affirmations plus the primary. -/
def checkLongAmended (o : Oracles) (w : String) : Status :=
  let wl := strLower w
  if o.spellAvail = true ∧ allAvailAffirm o wl = true then Status.valid
  else if total_validators o - 1 ≤ validators_passed o wl ∧ o.wordnetAns wl = true then
    Status.unsure
  else Status.invalid

/-- C2 counterexample: with both optional spell-checkers missing and
WordNet affirming, the 2-letter word "ab" is classified `invalid` by the
code, while the claim's thresholds ("all available oracles affirm plus
primary") classify it `valid`. -/
theorem check_short_claim_cex :
    check wordnetOnlyAllTrue "ab" ≠ checkShortClaim wordnetOnlyAllTrue "ab" ∧
      check wordnetOnlyAllTrue "ab" = Status.invalid ∧
      checkShortClaim wordnetOnlyAllTrue "ab" = Status.valid := by
  refine ⟨by decide, by decide, by decide⟩

/-- C2 amended: for every nonempty word of lowercased length ≤ 3 the code
agrees with the amended short-word spec `checkShortAmended`. -/
theorem check_short_amended_eq (o : Oracles) (w : String)
    (hw : w ≠ "") (hs : (strLower w).length ≤ 3) :
    check o w = checkShortAmended o w := by
  obtain ⟨sa, ea, wnf, spf, enf⟩ := o
  simp only [check, checkShortAmended, allAvailAffirm, validators_passed, total_validators,
    if_neg hw, if_pos hs]
  cases sa <;> cases ea <;>
      by_cases hwn : wnf (strLower w) = true <;>
      by_cases hsp : spf (strLower w) = true <;>
      by_cases hen : enf (strLower w) = true <;>
    simp_all

/-- Closed instance of C2 amended at the word "ab" with every oracle
installed and affirming. -/
theorem check_short_amended_eq_witness :
    "ab" ≠ "" ∧ (strLower "ab").length ≤ 3 ∧
      check allAffirming "ab" = checkShortAmended allAffirming "ab" :=
  ⟨by decide, by decide, check_short_amended_eq allAffirming "ab" (by decide) (by decide)⟩

/-- C3 counterexample: with both optional spell-checkers missing and
WordNet affirming, the 4-letter word "word" is classified `unsure` by the
code, while the claim's thresholds ("all oracles affirm" for valid)
classify it `valid`. -/
theorem check_long_claim_cex :
    check wordnetOnlyAllTrue "word" ≠ checkLongClaim wordnetOnlyAllTrue "word" ∧
      check wordnetOnlyAllTrue "word" = Status.unsure ∧
      checkLongClaim wordnetOnlyAllTrue "word" = Status.valid := by
  refine ⟨by decide, by decide, by decide⟩

/-- C3 amended: for every word of lowercased length > 3 the code agrees
with the amended long-word spec `checkLongAmended`. -/
theorem check_long_amended_eq (o : Oracles) (w : String)
    (hs : 3 < (strLower w).length) :
    check o w = checkLongAmended o w := by
  have hw : w ≠ "" := by
    intro h
    subst h
    exact absurd hs (by decide)
  obtain ⟨sa, ea, wnf, spf, enf⟩ := o
  simp only [check, checkLongAmended, allAvailAffirm, validators_passed, total_validators,
    if_neg hw, if_neg (Nat.not_le.mpr hs)]
  cases sa <;> cases ea <;>
      by_cases hwn : wnf (strLower w) = true <;>
      by_cases hsp : spf (strLower w) = true <;>
      by_cases hen : enf (strLower w) = true <;>
    simp_all

/-- Closed instance of C3 amended at the word "quartile" with every
oracle installed and affirming. -/
theorem check_long_amended_eq_witness :
    3 < (strLower "quartile").length ∧
      check allAffirming "quartile" = checkLongAmended allAffirming "quartile" :=
  ⟨by decide, check_long_amended_eq allAffirming "quartile" (by decide)⟩

/-- Oracle environment with no optional checkers installed and oracle
functions that affirm nothing. -/
def noneAffirming : Oracles :=
  ⟨false, false, fun _ => false, fun _ => false, fun _ => false⟩

/-- Oracle environment where every oracle is installed and affirms
exactly the word "ab". -/
def eqAbOracles : Oracles :=
  ⟨true, true, fun s => s == "ab", fun s => s == "ab", fun s => s == "ab"⟩

/-- C5: if zero oracles affirm the (lowercased) string, `check` returns
`invalid`, whatever the availability configuration. -/
theorem check_zero_affirm_invalid (o : Oracles) (w : String)
    (h : validators_passed o (strLower w) = 0) : check o w = Status.invalid := by
  by_cases hw : w = ""
  · subst hw
    simp [check]
  obtain ⟨sa, ea, wnf, spf, enf⟩ := o
  simp only [validators_passed] at h
  simp only [check, validators_passed, total_validators, if_neg hw]
  cases sa <;> cases ea <;>
      by_cases hwn : wnf (strLower w) = true <;>
      by_cases hsp : spf (strLower w) = true <;>
      by_cases hen : enf (strLower w) = true <;>
      by_cases hshort : (strLower w).length ≤ 3 <;>
    simp_all

/-- Closed instance of C5: no oracle affirms "xy", so it is invalid. -/
theorem check_zero_affirm_invalid_witness :
    validators_passed noneAffirming (strLower "xy") = 0 ∧
      check noneAffirming "xy" = Status.invalid :=
  ⟨by decide, check_zero_affirm_invalid noneAffirming "xy" (by decide)⟩

/-- C8: `check` is deterministic — two oracle environments with the same
availability flags and the same oracle answers on the lowercased input
produce the same label. -/
theorem check_deterministic (o1 o2 : Oracles) (w : String)
    (hsa : o1.spellAvail = o2.spellAvail)
    (hea : o1.enchantAvail = o2.enchantAvail)
    (hwn : o1.wordnetAns (strLower w) = o2.wordnetAns (strLower w))
    (hsp : o1.spellAns (strLower w) = o2.spellAns (strLower w))
    (hen : o1.enchantAns (strLower w) = o2.enchantAns (strLower w)) :
    check o1 w = check o2 w := by
  simp only [check, validators_passed, total_validators, hsa, hea, hwn, hsp, hen]

/-- Closed instance of C8: two different oracle environments that agree
on "ab" classify "ab" identically. -/
theorem check_deterministic_witness :
    (allAffirming.spellAvail = eqAbOracles.spellAvail ∧
        allAffirming.enchantAvail = eqAbOracles.enchantAvail ∧
        allAffirming.wordnetAns (strLower "ab") = eqAbOracles.wordnetAns (strLower "ab") ∧
        allAffirming.spellAns (strLower "ab") = eqAbOracles.spellAns (strLower "ab") ∧
        allAffirming.enchantAns (strLower "ab") = eqAbOracles.enchantAns (strLower "ab")) ∧
      check allAffirming "ab" = check eqAbOracles "ab" :=
  ⟨⟨by decide, by decide, by decide, by decide, by decide⟩,
    check_deterministic allAffirming eqAbOracles "ab"
      (by decide) (by decide) (by decide) (by decide) (by decide)⟩

/-- C9: if the secondary spell-checker is missing (`_SPELL is None`),
`check` can never return `valid`: `total_validators` still counts it, so
`validators_passed` cannot reach `total_validators`. -/
theorem check_no_spell_never_valid (o : Oracles) (w : String)
    (h : o.spellAvail = false) : check o w ≠ Status.valid := by
  by_cases hw : w = ""
  · subst hw
    simp [check]
  obtain ⟨sa, ea, wnf, spf, enf⟩ := o
  simp only [check, validators_passed, total_validators, if_neg hw]
  cases sa <;> cases ea <;>
      by_cases hwn : wnf (strLower w) = true <;>
      by_cases hsp : spf (strLower w) = true <;>
      by_cases hen : enf (strLower w) = true <;>
      by_cases hshort : (strLower w).length ≤ 3 <;>
      simp_all <;>
    (split <;> simp_all)

/-- Closed instance of C9: with the spell-checker missing, even a word
WordNet affirms is not `valid`. -/
theorem check_no_spell_never_valid_witness :
    wordnetOnlyAllTrue.spellAvail = false ∧
      check wordnetOnlyAllTrue "ab" ≠ Status.valid :=
  ⟨by decide, check_no_spell_never_valid wordnetOnlyAllTrue "ab" (by decide)⟩

/-- C10: whenever `check` returns `valid`, the primary WordNet oracle
affirmed the word — also for long words, whose `valid` branch does not
test the WordNet flag explicitly (the count can only reach
`total_validators` if WordNet contributed). -/
theorem check_valid_implies_wordnet (o : Oracles) (w : String)
    (h : check o w = Status.valid) : o.wordnetAns (strLower w) = true := by
  by_cases hw : w = ""
  · subst hw
    simp [check] at h
  obtain ⟨sa, ea, wnf, spf, enf⟩ := o
  simp only [check, validators_passed, total_validators, if_neg hw] at h
  by_cases hwn : wnf (strLower w) = true
  · exact hwn
  · exfalso
    cases sa <;> cases ea <;>
        by_cases hsp : spf (strLower w) = true <;>
        by_cases hen : enf (strLower w) = true <;>
        by_cases hshort : (strLower w).length ≤ 3 <;>
      simp_all

/-- Closed instance of C10: "ab" is `valid` under the fully affirming
environment, and indeed WordNet affirms it there. -/
theorem check_valid_implies_wordnet_witness :
    check allAffirming "ab" = Status.valid ∧
      allAffirming.wordnetAns (strLower "ab") = true :=
  ⟨by decide, check_valid_implies_wordnet allAffirming "ab" (by decide)⟩

/-- `picks` produces one entry per position of the list. -/
theorem length_picks {α : Type} (l : List α) : (picks l).length = l.length := by
  induction l with
  | nil => rfl
  | cons x xs ih => simp [picks, ih]

/-- Every remainder produced by `picks` is one element shorter than the
input list. -/
theorem picks_snd_length {α : Type} (l : List α) :
    ∀ p ∈ picks l, p.2.length + 1 = l.length := by
  induction l with
  | nil =>
    intro p hp
    cases hp
  | cons x xs ih =>
    intro p hp
    simp only [picks, List.mem_cons, List.mem_map] at hp
    rcases hp with h | ⟨q, hq, rfl⟩
    · subst h
      simp
    · have := ih q hq
      simp only [List.length_cons]
      omega

/-- Summing a constant function over a list. -/
theorem sum_map_const {β : Type} (l : List β) (f : β → Nat) (c : Nat)
    (h : ∀ b ∈ l, f b = c) : (l.map f).sum = l.length * c := by
  induction l with
  | nil => simp
  | cons x xs ih =>
    simp only [List.map_cons, List.sum_cons, List.length_cons]
    rw [h x (List.mem_cons_self x xs), ih fun b hb => h b (List.mem_cons_of_mem x hb)]
    ring

/-- `kperms k l` has exactly `n!/(n-k)!` entries (`n = l.length`), the
number of k-permutations counted positionally. -/
theorem length_kperms {α : Type} (k : Nat) (l : List α) :
    (kperms k l).length = l.length.descFactorial k := by
  induction k generalizing l with
  | zero => simp [kperms]
  | succ m ih =>
    cases l with
    | nil => simp [kperms, picks, Nat.zero_descFactorial_succ]
    | cons x xs =>
      rw [kperms, List.length_flatMap,
        sum_map_const _ _ (xs.length.descFactorial m)
          (fun p hp => by
            have hlen := picks_snd_length (x :: xs) p hp
            simp only [Function.comp_apply, List.length_map, ih p.2]
            have h2 : p.2.length = xs.length := by
              simp only [List.length_cons] at hlen
              omega
            rw [h2]),
        length_picks]
      simp only [List.length_cons, Nat.succ_descFactorial_succ]

/-- Sum of a function mapped over `List.range' s n`, as a `Finset.Ico`
sum. -/
theorem sum_map_range_from {β : Type} [AddCommMonoid β] (g : Nat → β) (n : Nat) :
    ∀ s : Nat, ((List.range' s n).map g).sum = ∑ k ∈ Finset.Ico s (s + n), g k := by
  induction n with
  | zero => intro s; simp
  | succ m ih =>
    intro s
    have hr : List.range' s (m + 1) = s :: List.range' (s + 1) m := rfl
    rw [hr, List.map_cons, List.sum_cons, ih (s + 1),
      Finset.sum_eq_sum_Ico_succ_bot (by omega : s < s + (m + 1)) g]
    have he : s + 1 + m = s + (m + 1) := by omega
    rw [he]

/-- With the full bounds `(1, n)` on a nonempty list, `concat` is the
flat enumeration of all k-permutations for `k = 1 .. n`. -/
theorem concat_full_eq (frags : List String) (h : frags ≠ []) :
    concat frags 1 (some ((frags.length : Int))) =
      (List.range' 1 frags.length).flatMap
        (fun k => (kperms k frags).map (fun perm => String.join perm)) := by
  have hn : frags.length ≠ 0 := fun hh => h (List.length_eq_zero.mp hh)
  have hn1 : 1 ≤ frags.length := Nat.one_le_iff_ne_zero.mpr hn
  have hmax : max (1 : Int) 1 = 1 := max_self 1
  have hmin : min ((frags.length : Int)) ((frags.length : Int)) = (frags.length : Int) :=
    min_self _
  have hcond : ¬(max (1 : Int) 1 > min ((frags.length : Int)) ((frags.length : Int))) := by
    rw [hmax, hmin]
    exact not_lt.mpr (by exact_mod_cast hn1)
  simp only [concat, Option.getD_some, if_neg hn, hmax, hmin]
  have hcond2 : ¬((1 : Int) > (frags.length : Int)) :=
    not_lt.mpr (by exact_mod_cast hn1)
  rw [if_neg hcond2]
  have e2 : ((frags.length : Int) + 1 - 1).toNat = frags.length := by omega
  rw [e2]
  rfl

/-- Sum over `k = 1 .. n` of the k-permutation counts, as produced by the
full-bounds Combiner. -/
theorem concat_full_length (frags : List String) (h : frags ≠ []) :
    (concat frags 1 (some ((frags.length : Int)))).length =
      ∑ k ∈ Finset.Icc 1 frags.length, Nat.descFactorial frags.length k := by
  rw [concat_full_eq frags h, List.length_flatMap]
  have hmap : (List.range' 1 frags.length).map
        (List.length ∘ fun k => (kperms k frags).map (fun perm => String.join perm)) =
      (List.range' 1 frags.length).map (fun k => Nat.descFactorial frags.length k) := by
    apply List.map_congr_left
    intro k _
    simp [length_kperms]
  rw [hmap, sum_map_range_from _ _ 1]
  have : 1 + frags.length = frags.length + 1 := by omega
  rw [this, Nat.Ico_succ_right]

/-- C1: on a nonempty fragment list of size n, `concat` with bounds
`(1, n)` produces exactly `∑ k ∈ [1, n], n!/(n-k)!` candidate strings,
duplicates counted positionally. -/
theorem concat_full_bounds_count (frags : List String) (h : frags ≠ []) :
    (concat frags 1 (some ((frags.length : Int)))).length =
      ∑ k ∈ Finset.Icc 1 frags.length,
        Nat.factorial frags.length / Nat.factorial (frags.length - k) := by
  rw [concat_full_length frags h]
  refine Finset.sum_congr rfl fun k hk => ?_
  exact Nat.descFactorial_eq_div (Finset.mem_Icc.mp hk).2

/-- Closed instance of C1: on the two-fragment list `["qu", "art"]` the
full-bounds Combiner yields `2!/1! + 2!/0! = 4` candidates. -/
theorem concat_full_bounds_count_witness :
    (["qu", "art"] : List String) ≠ [] ∧
      (concat ["qu", "art"] 1 (some (((["qu", "art"] : List String).length : Int)))).length =
        ∑ k ∈ Finset.Icc 1 (["qu", "art"] : List String).length,
          Nat.factorial (["qu", "art"] : List String).length /
            Nat.factorial ((["qu", "art"] : List String).length - k) :=
  ⟨by decide, concat_full_bounds_count ["qu", "art"] (by decide)⟩

end Quartiles
